import Mathlib

/-!
Verification of the QuickHull convex-hull engine (quickhull-ts).

The TypeScript sources are embedded shallowly: JavaScript numbers are
modelled as elements of a linear ordered field (ℚ where every quantity the
claim touches stays rational, ℝ where the source takes square roots),
3-component number arrays as the structure Vec3, and the mutating methods as
pure functions on explicit state. Definition names follow the source files
(src/src/util.ts, src/src/face.ts, src/src/enums.ts and the QuickHull class).
-/

namespace QuickHullTS

/-- A 3-component vector, as src/src/util.ts represents points and vectors:
a JavaScript array [x, y, z] of numbers. The component type is a parameter:
ℝ models the source exactly where it calls Math.sqrt, ℚ is used where every
quantity of a claim stays rational and lets witnesses evaluate by decide. -/
structure Vec3 (α : Type) where
  x : α
  y : α
  z : α
deriving DecidableEq

variable {α : Type} [LinearOrderedField α]

/-- util.ts dot: a[0]*b[0] + a[1]*b[1] + a[2]*b[2]. -/
def dot (a b : Vec3 α) : α :=
  a.x * b.x + a.y * b.y + a.z * b.z

/-- util.ts add, componentwise. -/
def add (v1 v2 : Vec3 α) : Vec3 α :=
  ⟨v1.x + v2.x, v1.y + v2.y, v1.z + v2.z⟩

/-- util.ts subtract, componentwise. -/
def subtract (v1 v2 : Vec3 α) : Vec3 α :=
  ⟨v1.x - v2.x, v1.y - v2.y, v1.z - v2.z⟩

/-- util.ts cross, the right-hand-rule cross product. -/
def cross (v1 v2 : Vec3 α) : Vec3 α :=
  ⟨v1.y * v2.z - v1.z * v2.y, v1.z * v2.x - v1.x * v2.z, v1.x * v2.y - v1.y * v2.x⟩

/-- util.ts scale: every component of v multiplied by l. -/
def scale (v : Vec3 α) (l : α) : Vec3 α :=
  ⟨v.x * l, v.y * l, v.z * l⟩

/-- util.ts scaleAndAdd as this repository redefines it: t[i] = v1[i] * l + s,
i.e. scale by the number l and add the number s to every component (unlike the
gl-matrix function of the same name, whose third argument is a vector). -/
def scaleAndAdd (v1 : Vec3 α) (l : α) (s : α) : Vec3 α :=
  ⟨v1.x * l + s, v1.y * l + s, v1.z * l + s⟩

/-- util.ts squaredDistance: (v1[0]-v2[0])^2 + (v1[1]-v2[1])^2 + (v1[2]-v2[2])^2. -/
def squaredDistance (v1 v2 : Vec3 α) : α :=
  (v1.x - v2.x) ^ 2 + (v1.y - v2.y) ^ 2 + (v1.z - v2.z) ^ 2

/-- util.ts getPlaneNormal(t, a, b, c): v1 = b - a, v2 = b - c, t = v2 x v1. -/
def getPlaneNormal (a b c : Vec3 α) : Vec3 α :=
  cross (subtract b c) (subtract b a)

/-- util.ts length: Math.sqrt(v[0]*v[0] + v[1]*v[1] + v[2]*v[2]), over ℝ. -/
noncomputable def length (v : Vec3 ℝ) : ℝ :=
  Real.sqrt (v.x * v.x + v.y * v.y + v.z * v.z)

/-- util.ts distance: Math.sqrt(squaredDistance(v1, v2)). -/
noncomputable def distance (v1 v2 : Vec3 ℝ) : ℝ :=
  Real.sqrt (squaredDistance v1 v2)

/-- util.ts normalize: the zero vector when the length is exactly zero,
otherwise the vector scaled by the reciprocal of its length. -/
noncomputable def normalize (v : Vec3 ℝ) : Vec3 ℝ :=
  if length v = 0 then ⟨0, 0, 0⟩ else scale v (1 / length v)

/-- util.ts pointLineDistance: x10 = l1 - p, x21 = l2 - l1,
c = x21 x x10, len = length(c) / length(x21). The source guards the result
with isNaN and returns 0 then; in exact arithmetic the quotient is undefined
exactly when length(x21) = 0 (then c = 0 as well, the 0/0 case), and Lean
division by zero already yields 0, absorbing the guard. -/
noncomputable def pointLineDistance (p l1 l2 : Vec3 ℝ) : ℝ :=
  let x10 := subtract l1 p
  let x21 := subtract l2 l1
  let c := cross x21 x10
  length c / length x21

/-- src/src/enums.ts FaceState. -/
inductive FaceState where
  | VISIBLE
  | NON_CONVEX
  | DELETED
deriving DecidableEq

/-- src/src/enums.ts MergeType. -/
inductive MergeType where
  | MERGE_NON_CONVEX_WRT_LARGER_FACE
  | MERGE_NON_CONVEX
deriving DecidableEq

/-! ## QuickHull constructor (claim C3)

The constructor of the QuickHull class receives an arbitrary JavaScript
value; it first tests Array.isArray and then the length. The input is
modelled as either a non-array value or an array of points. -/

/-- The JavaScript value passed to the QuickHull constructor: either not an
array at all, or an array of points. -/
inductive JSInput (α : Type) where
  | notArray : JSInput α
  | array : List (Vec3 α) → JSInput α

/-- The two errors the constructor can throw: the TypeError for a non-array
input (the caller-facing BadInput error) and the Error for fewer than 4
points (TooFewPoints). -/
inductive ConstructorError where
  | badInput
  | tooFewPoints
deriving DecidableEq

/-- A Vertex as built by the constructor: the point and its index in the
input array. -/
structure QHVertex (α : Type) where
  point : Vec3 α
  index : Nat
deriving DecidableEq

/-- The fields the QuickHull constructor initialises that later claims read. -/
structure QuickHullInit (α : Type) where
  tolerance : α
  nFaces : Nat
  nPoints : Nat
  vertices : List (QHVertex α)

/-- The QuickHull constructor: throw TypeError when the input is not an
array, throw Error when fewer than 4 points, otherwise initialise
tolerance = -1, nFaces = 0, nPoints = points.length and wrap every point as
a Vertex carrying its input index. -/
def quickHullConstructor : JSInput α → Except ConstructorError (QuickHullInit α)
  | JSInput.notArray => Except.error ConstructorError.badInput
  | JSInput.array points =>
      if points.length < 4 then Except.error ConstructorError.tooFewPoints
      else Except.ok
        { tolerance := -1
          nFaces := 0
          nPoints := points.length
          vertices := points.enum.map (fun pr => ⟨pr.2, pr.1⟩) }

/-- C3: constructing a QuickHull fails with BadInput exactly on a non-array
input, fails with TooFewPoints exactly on an array of fewer than 4 points,
and succeeds otherwise. -/
theorem quickHullConstructor_errors (input : JSInput α) :
    (quickHullConstructor input = Except.error ConstructorError.badInput ↔
      input = JSInput.notArray) ∧
    (quickHullConstructor input = Except.error ConstructorError.tooFewPoints ↔
      ∃ points, input = JSInput.array points ∧ points.length < 4) ∧
    ((∃ st, quickHullConstructor input = Except.ok st) ↔
      ∃ points, input = JSInput.array points ∧ 4 ≤ points.length) := by
  cases input with
  | notArray => simp [quickHullConstructor]
  | array points =>
      by_cases hlen : points.length < 4 <;>
        simp [quickHullConstructor, hlen] <;> omega

/-! ## Face collection and reindexing (claims C5, C6)

Face.collectIndices walks a face's closed edge ring from face.edge along the
next pointers and reads off the head index of each half edge. A face is
therefore modelled for these claims by its mark and by that list of indices
in ring order. -/

/-- A face as QuickHull.collectFaces reads it: its mark and the indices its
collectIndices walk yields (the head index of each edge of the ring, in next
order starting at face.edge). -/
structure CollectFace where
  mark : FaceState
  ring : List Nat
deriving DecidableEq

/-- The inner triangulation loop of QuickHull.collectFaces: for j from 0
while j < indices.length - 2, emit [indices[0], indices[j+1], indices[j+2]]. -/
def fanTriangles (indices : List Nat) : List (List Nat) :=
  (List.range (indices.length - 2)).map
    (fun j => [indices.getD 0 0, indices.getD (j + 1) 0, indices.getD (j + 2) 0])

/-- QuickHull.collectFaces: walk this.faces in order; throw on a face whose
mark is not VISIBLE; otherwise emit the face's index ring as one polygon when
skipTriangulation is set, and its fan triangulation otherwise. -/
def collectFaces (skipTriangulation : Bool) : List CollectFace → Except Unit (List (List Nat))
  | [] => Except.ok []
  | f :: rest =>
      if f.mark ≠ FaceState.VISIBLE then Except.error ()
      else
        match collectFaces skipTriangulation rest with
        | Except.error e => Except.error e
        | Except.ok tail =>
            Except.ok ((if skipTriangulation then [f.ring] else fanTriangles f.ring) ++ tail)

/-- QuickHull.reindexFaceAndVertices: keep exactly the faces whose mark is
VISIBLE. -/
def reindexFaceAndVertices (faces : List CollectFace) : List CollectFace :=
  faces.filter (fun f => f.mark = FaceState.VISIBLE)

theorem fanTriangles_cons (i0 : Nat) (l : List Nat) :
    fanTriangles (i0 :: l) =
      (List.range (l.length - 1)).map (fun j => [i0, l.getD j 0, l.getD (j + 1) 0]) := by
  simp [fanTriangles]

theorem zip_tail_getD (l : List Nat) :
    l.zip l.tail = (List.range (l.length - 1)).map (fun j => (l.getD j 0, l.getD (j + 1) 0)) := by
  induction l with
  | nil => simp
  | cons a t ih =>
      cases t with
      | nil => simp
      | cons b t2 =>
          have h1 : (a :: b :: t2).length - 1 = ((b :: t2).length - 1) + 1 := by
            simp
          rw [h1, List.range_succ_eq_map]
          simp only [List.tail_cons] at ih
          simp only [List.zip_cons_cons, List.tail_cons, List.map_cons, List.map_map]
          refine List.cons_eq_cons.mpr ⟨by simp, ?_⟩
          rw [ih]
          refine List.map_congr_left ?_
          intro j hj
          simp [Function.comp]

/-- C6: for a surviving face whose edge ring yields the indices
i0 :: i1 :: i2 :: rest (hence n >= 3), collectFaces with skipTriangulation
emits the polygon as one sequence; without it, it emits exactly the n - 2
fan triangles [i0, i(k+1), i(k+2)] for k = 0..n-3, in that order. -/
theorem collectFaces_triangulation (i0 i1 i2 : Nat) (rest : List Nat) :
    collectFaces true [⟨FaceState.VISIBLE, i0 :: i1 :: i2 :: rest⟩] =
      Except.ok [i0 :: i1 :: i2 :: rest] ∧
    collectFaces false [⟨FaceState.VISIBLE, i0 :: i1 :: i2 :: rest⟩] =
      Except.ok (((i1 :: i2 :: rest).zip (i2 :: rest)).map (fun pr => [i0, pr.1, pr.2])) ∧
    (fanTriangles (i0 :: i1 :: i2 :: rest)).length = (i0 :: i1 :: i2 :: rest).length - 2 := by
  refine ⟨by simp [collectFaces], ?_, by simp [fanTriangles]⟩
  have hz := zip_tail_getD (i1 :: i2 :: rest)
  simp only [List.tail_cons] at hz
  rw [hz]
  simp only [collectFaces, fanTriangles_cons]
  simp [List.map_map, Function.comp]

/-! ## doAdjacentMerge iteration guard (claim C5)

QuickHull.doAdjacentMerge walks the candidate face's edge ring from
face.edge along next, counting iterations in it, and throws when
it >= face.nVertices. The ring is abstracted as a type of edges with a
next map (so that a corrupted ring that never returns to the start is
representable); what the merge decision reads from an edge before any
mutation happens is captured per edge. When the decision says merge, the
source mutates the mesh and returns true immediately, so the walk never
continues past a merging edge and the pre-walk snapshot suffices. -/

/-- The quantities doAdjacentMerge reads at one edge: face.area, the
opposite face's area (0 when absent, as the source's fallback gives), and
oppositeFaceDistance of the edge and of its opposite (again 0 fallbacks). -/
structure AdjacentEdgeData (α : Type) where
  faceArea : α
  oppArea : α
  distEdge : α
  distOpp : α

/-- The merge decision of one doAdjacentMerge iteration, returning
(merge, set-convex-false). MERGE_NON_CONVEX merges when either
oppositeFaceDistance exceeds -tolerance; MERGE_NON_CONVEX_WRT_LARGER_FACE
checks the larger face first and only lowers the convex flag when the
smaller face's check passes instead. -/
def mergeCheck (tol : α) (mergeType : MergeType) (d : AdjacentEdgeData α) : Bool × Bool :=
  if mergeType = MergeType.MERGE_NON_CONVEX then
    (decide (d.distEdge > -tol) || decide (d.distOpp > -tol), false)
  else
    if d.faceArea > d.oppArea then
      if d.distEdge > -tol then (true, false)
      else if d.distOpp > -tol then (false, true)
      else (false, false)
    else
      if d.distOpp > -tol then (true, false)
      else if d.distEdge > -tol then (false, true)
      else (false, false)

/-- The outcome of doAdjacentMerge when it does not throw: either it merged
and returned true, or it walked the whole ring back to face.edge and
returned false, recording whether the face was left convex (the source marks
the face NON_CONVEX when not). -/
inductive MergeOutcome where
  | merged
  | notMerged (convex : Bool)
deriving DecidableEq

/-- The do-while loop of doAdjacentMerge: at iteration it on edge e, throw
when it >= nVertices; otherwise decide the merge for e, return merged when
it fires, advance to next e, return notMerged when back at the start edge,
and continue otherwise. -/
def doAdjacentMergeGo {E : Type} [DecidableEq E] (tol : α) (mergeType : MergeType)
    (nVertices : Nat) (next : E → E) (dataOf : E → AdjacentEdgeData α) (start : E)
    (it : Nat) (e : E) (convex : Bool) : Except Unit MergeOutcome :=
  if nVertices ≤ it then Except.error ()
  else
    if (mergeCheck tol mergeType (dataOf e)).1 then Except.ok MergeOutcome.merged
    else
      if next e = start then
        Except.ok (MergeOutcome.notMerged (convex && !(mergeCheck tol mergeType (dataOf e)).2))
      else
        doAdjacentMergeGo tol mergeType nVertices next dataOf start (it + 1) (next e)
          (convex && !(mergeCheck tol mergeType (dataOf e)).2)
termination_by nVertices - it
decreasing_by omega

/-- doAdjacentMerge's ring walk, entered at face.edge with it = 0 and the
convex flag raised. -/
def doAdjacentMergeWalk {E : Type} [DecidableEq E] (tol : α) (mergeType : MergeType)
    (nVertices : Nat) (next : E → E) (dataOf : E → AdjacentEdgeData α) (start : E) :
    Except Unit MergeOutcome :=
  doAdjacentMergeGo tol mergeType nVertices next dataOf start 0 start true

theorem doAdjacentMergeGo_error_iff {E : Type} [DecidableEq E] (tol : α)
    (mergeType : MergeType) (nVertices : Nat) (next : E → E)
    (dataOf : E → AdjacentEdgeData α) (start : E) :
    ∀ it e convex, doAdjacentMergeGo tol mergeType nVertices next dataOf start it e convex
        = Except.error () ↔
      ∀ k, it + k < nVertices →
        (mergeCheck tol mergeType (dataOf (next^[k] e))).1 = false ∧
        next^[k + 1] e ≠ start := by
  suffices h : ∀ fuel it e convex, nVertices - it = fuel →
      (doAdjacentMergeGo tol mergeType nVertices next dataOf start it e convex
          = Except.error () ↔
        ∀ k, it + k < nVertices →
          (mergeCheck tol mergeType (dataOf (next^[k] e))).1 = false ∧
          next^[k + 1] e ≠ start) by
    intro it e convex
    exact h (nVertices - it) it e convex rfl
  intro fuel
  induction fuel with
  | zero =>
      intro it e convex hf
      have hle : nVertices ≤ it := by omega
      rw [doAdjacentMergeGo, if_pos hle]
      exact iff_of_true rfl (fun k hk => absurd hk (by omega))
  | succ n ihn =>
      intro it e convex hf
      have hlt : it < nVertices := by omega
      rw [doAdjacentMergeGo, if_neg (by omega : ¬ nVertices ≤ it)]
      by_cases hmc : (mergeCheck tol mergeType (dataOf e)).1
      · rw [if_pos hmc]
        refine iff_of_false (by simp) (fun h => ?_)
        have h0 := (h 0 (by omega)).1
        rw [Function.iterate_zero_apply] at h0
        rw [h0] at hmc
        exact Bool.false_ne_true hmc
      · rw [if_neg hmc]
        by_cases hnx : next e = start
        · rw [if_pos hnx]
          refine iff_of_false (by simp) (fun h => ?_)
          have h0 := (h 0 (by omega)).2
          rw [Function.iterate_one] at h0
          exact h0 hnx
        · rw [if_neg hnx]
          rw [ihn (it + 1) (next e) (convex && !(mergeCheck tol mergeType (dataOf e)).2)
            (by omega)]
          constructor
          · intro h k hk
            cases k with
            | zero =>
                refine ⟨?_, ?_⟩
                · rw [Function.iterate_zero_apply]
                  exact Bool.eq_false_iff.mpr hmc
                · rw [Function.iterate_one]
                  exact hnx
            | succ k2 =>
                have h2 := h k2 (by omega)
                rw [Function.iterate_succ_apply, Function.iterate_succ_apply]
                exact h2
          · intro h k hk
            have h2 := h (k + 1) (by omega)
            rw [Function.iterate_succ_apply, Function.iterate_succ_apply] at h2
            exact h2

theorem collectFaces_error_iff (skipTriangulation : Bool) (faces : List CollectFace) :
    collectFaces skipTriangulation faces = Except.error () ↔
      ∃ f ∈ faces, f.mark ≠ FaceState.VISIBLE := by
  induction faces with
  | nil => simp [collectFaces]
  | cons f rest ih =>
      by_cases hm : f.mark = FaceState.VISIBLE
      · rw [collectFaces, if_neg (by simp [hm])]
        cases hrest : collectFaces skipTriangulation rest with
        | error e =>
            cases e
            rw [hrest] at ih
            obtain ⟨g, hg, hgm⟩ := ih.mp rfl
            exact iff_of_true (by rfl) ⟨g, List.mem_cons_of_mem f hg, hgm⟩
        | ok tail =>
            rw [hrest] at ih
            constructor
            · intro h
              exact absurd h (by simp)
            · rintro ⟨g, hg, hgm⟩
              rcases List.mem_cons.mp hg with hg | hg
              · rw [hg] at hgm
                exact absurd hm hgm
              · exact absurd (ih.mpr ⟨g, hg, hgm⟩) (by simp)
      · rw [collectFaces, if_pos (by simp [hm])]
        exact iff_of_true (by rfl) ⟨f, List.mem_cons_self f rest, hm⟩

theorem collectFaces_reindex_ok (skipTriangulation : Bool) (faces : List CollectFace) :
    ∃ out, collectFaces skipTriangulation (reindexFaceAndVertices faces) = Except.ok out := by
  cases hout : collectFaces skipTriangulation (reindexFaceAndVertices faces) with
  | error e =>
      cases e
      obtain ⟨f, hf, hfm⟩ := (collectFaces_error_iff _ _).mp hout
      rw [reindexFaceAndVertices, List.mem_filter] at hf
      exact absurd (by simpa using hf.2) hfm
  | ok out => exact ⟨out, rfl⟩

/-- C5: the merge-walk guard of doAdjacentMerge throws exactly when the walk
from face.edge neither fires a merge nor returns to the starting edge within
the face's nVertices iterations; collectFaces throws exactly when some face
it emits has a mark other than VISIBLE; and after reindexFaceAndVertices
(which keeps only VISIBLE faces) the collectFaces error branch cannot be
reached. -/
theorem internalInvariant_failures :
    (∀ (E : Type) (deq : DecidableEq E) (tol : α) (mergeType : MergeType)
        (nVertices : Nat) (next : E → E) (dataOf : E → AdjacentEdgeData α) (start : E),
      doAdjacentMergeWalk tol mergeType nVertices next dataOf start = Except.error () ↔
        ∀ k, k < nVertices →
          (mergeCheck tol mergeType (dataOf (next^[k] start))).1 = false ∧
          next^[k + 1] start ≠ start) ∧
    (∀ (skipTriangulation : Bool) (faces : List CollectFace),
      collectFaces skipTriangulation faces = Except.error () ↔
        ∃ f ∈ faces, f.mark ≠ FaceState.VISIBLE) ∧
    (∀ (skipTriangulation : Bool) (faces : List CollectFace),
      ∃ out, collectFaces skipTriangulation (reindexFaceAndVertices faces)
          = Except.ok out) := by
  refine ⟨?_, collectFaces_error_iff, collectFaces_reindex_ok⟩
  intro E deq tol mergeType nVertices next dataOf start
  rw [doAdjacentMergeWalk, doAdjacentMergeGo_error_iff]
  simp only [Nat.zero_add]

/-! ## resolveUnclaimedPoints (claim C2)

During resolveUnclaimedPoints neither the tolerance nor any face plane
changes (addVertexToFace only relinks vertex lists), so a face is modelled
by its mark and plane, and the per-vertex scan of newFaces is a pure
function of the vertex point. -/

/-- A face as the resolveUnclaimedPoints scan reads it: its mark and its
plane (normal and offset). -/
structure PlaneFace (α : Type) where
  mark : FaceState
  normal : Vec3 α
  offset : α
deriving DecidableEq

/-- Face.distanceToPlane: dot(normal, point) - offset. -/
def distanceToPlane (f : PlaneFace α) (point : Vec3 α) : α :=
  dot f.normal point - f.offset

/-- The inner loop of QuickHull.resolveUnclaimedPoints for one unclaimed
vertex: scan newFaces keeping the face of maximal distance (strict
improvement over the running maximum, which starts at the tolerance), and
break out of the loop as soon as the running maximum exceeds
1000 * tolerance. -/
def scanNewFaces (tol : α) (p : Vec3 α) :
    List (PlaneFace α) → α → Option (PlaneFace α) → α × Option (PlaneFace α)
  | [], maxDistance, maxFace => (maxDistance, maxFace)
  | f :: restFaces, maxDistance, maxFace =>
      if f.mark = FaceState.VISIBLE then
        let dist := distanceToPlane f p
        let maxDistance2 := if dist > maxDistance then dist else maxDistance
        let maxFace2 := if dist > maxDistance then some f else maxFace
        if maxDistance2 > 1000 * tol then (maxDistance2, maxFace2)
        else scanNewFaces tol p restFaces maxDistance2 maxFace2
      else scanNewFaces tol p restFaces maxDistance maxFace

/-- The face (if any) that resolveUnclaimedPoints assigns one unclaimed
vertex to: the scan is entered with maxDistance = tolerance and no face. -/
def selectFaceForVertex (tol : α) (newFaces : List (PlaneFace α)) (p : Vec3 α) :
    Option (PlaneFace α) :=
  (scanNewFaces tol p newFaces tol none).2

/-- QuickHull.resolveUnclaimedPoints: each vertex of the unclaimed list is
assigned to the face its scan selects (none discards the vertex). -/
def resolveUnclaimedPoints (tol : α) (newFaces : List (PlaneFace α))
    (unclaimed : List (Vec3 α)) : List (Vec3 α × Option (PlaneFace α)) :=
  unclaimed.map (fun p => (p, selectFaceForVertex tol newFaces p))

/-- Modelled from the claim for comparison: the unconditional scan, keeping
the VISIBLE face of maximal distanceToPlane (first face wins ties, strict
improvement over a running maximum started at the tolerance) with no early
exit. -/
def unconditionalMaxScan (p : Vec3 α) :
    List (PlaneFace α) → α → Option (PlaneFace α) → α × Option (PlaneFace α)
  | [], maxDistance, maxFace => (maxDistance, maxFace)
  | f :: restFaces, maxDistance, maxFace =>
      if f.mark = FaceState.VISIBLE then
        let dist := distanceToPlane f p
        unconditionalMaxScan p restFaces (if dist > maxDistance then dist else maxDistance)
          (if dist > maxDistance then some f else maxFace)
      else unconditionalMaxScan p restFaces maxDistance maxFace

/-- Modelled from the claim: the VISIBLE face among newFaces maximizing
distanceToPlane when that maximum exceeds the tolerance, none otherwise. -/
def unconditionalSelect (tol : α) (newFaces : List (PlaneFace α)) (p : Vec3 α) :
    Option (PlaneFace α) :=
  (unconditionalMaxScan p newFaces tol none).2

/-- C2 counterexample: with tolerance 1 and two visible faces, a vertex at
distance 2000 from the first face and 4000 from the second is assigned to
the first face (the scan breaks once the running maximum 2000 exceeds
1000 * tolerance), while maximum-distance assignment picks the second, so
resolveUnclaimedPoints does not coincide with unconditional
maximum-distance assignment. -/
theorem resolveUnclaimedPoints_early_exit_differs :
    resolveUnclaimedPoints (1 : ℚ)
        [⟨FaceState.VISIBLE, ⟨0, 0, 1⟩, 0⟩, ⟨FaceState.VISIBLE, ⟨0, 0, 2⟩, 0⟩]
        [⟨0, 0, 2000⟩] ≠
      [(⟨0, 0, 2000⟩,
        unconditionalSelect (1 : ℚ)
          [⟨FaceState.VISIBLE, ⟨0, 0, 1⟩, 0⟩, ⟨FaceState.VISIBLE, ⟨0, 0, 2⟩, 0⟩]
          ⟨0, 0, 2000⟩)] := by
  have hsel : selectFaceForVertex (1 : ℚ)
      [⟨FaceState.VISIBLE, ⟨0, 0, 1⟩, 0⟩, ⟨FaceState.VISIBLE, ⟨0, 0, 2⟩, 0⟩]
      ⟨0, 0, 2000⟩ = some ⟨FaceState.VISIBLE, ⟨0, 0, 1⟩, 0⟩ := by
    norm_num [selectFaceForVertex, scanNewFaces, distanceToPlane, dot]
  have hunc : unconditionalSelect (1 : ℚ)
      [⟨FaceState.VISIBLE, ⟨0, 0, 1⟩, 0⟩, ⟨FaceState.VISIBLE, ⟨0, 0, 2⟩, 0⟩]
      ⟨0, 0, 2000⟩ = some ⟨FaceState.VISIBLE, ⟨0, 0, 2⟩, 0⟩ := by
    norm_num [unconditionalSelect, unconditionalMaxScan, distanceToPlane, dot]
  rw [resolveUnclaimedPoints, List.map_cons, List.map_nil, hsel, hunc]
  simp

theorem scanNewFaces_none_stays {tol : α} {p : Vec3 α} (faces : List (PlaneFace α))
    (maxDistance : α) (g : PlaneFace α) :
    (scanNewFaces tol p faces maxDistance (some g)).2 ≠ none := by
  induction faces generalizing maxDistance g with
  | nil => simp [scanNewFaces]
  | cons f restFaces ih =>
      rw [scanNewFaces]
      by_cases hm : f.mark = FaceState.VISIBLE
      · rw [if_pos hm]
        by_cases hd : distanceToPlane f p > maxDistance
        · simp only [if_pos hd]
          split
          · simp
          · exact ih _ f
        · simp only [if_neg hd]
          split
          · simp
          · exact ih _ g
      · rw [if_neg hm]
        exact ih maxDistance g

theorem scanNewFaces_eq_uncond {tol : α} {p : Vec3 α} (h0 : 0 ≤ tol)
    (faces : List (PlaneFace α)) :
    ∀ maxDistance maxFace, maxDistance ≤ 1000 * tol →
      (∀ f ∈ faces, f.mark = FaceState.VISIBLE → distanceToPlane f p ≤ 1000 * tol) →
      scanNewFaces tol p faces maxDistance maxFace
        = unconditionalMaxScan p faces maxDistance maxFace := by
  induction faces with
  | nil => intro maxDistance maxFace _ _; rfl
  | cons f restFaces ih =>
      intro maxDistance maxFace hmd hb
      rw [scanNewFaces, unconditionalMaxScan]
      by_cases hm : f.mark = FaceState.VISIBLE
      · rw [if_pos hm, if_pos hm]
        have hdist : distanceToPlane f p ≤ 1000 * tol :=
          hb f (List.mem_cons_self f restFaces) hm
        have hmd2 : (if distanceToPlane f p > maxDistance then distanceToPlane f p
            else maxDistance) ≤ 1000 * tol := by
          split <;> assumption
        rw [if_neg (by exact not_lt.mpr hmd2)]
        exact ih _ _ hmd2 (fun g hg => hb g (List.mem_cons_of_mem f hg))
      · rw [if_neg hm, if_neg hm]
        exact ih maxDistance maxFace hmd (fun g hg => hb g (List.mem_cons_of_mem f hg))

theorem scanNewFaces_none_iff {tol : α} {p : Vec3 α} (h0 : 0 ≤ tol)
    (faces : List (PlaneFace α)) :
    (scanNewFaces tol p faces tol none).2 = none ↔
      ∀ f ∈ faces, f.mark = FaceState.VISIBLE → distanceToPlane f p ≤ tol := by
  induction faces with
  | nil => simp [scanNewFaces]
  | cons f restFaces ih =>
      rw [scanNewFaces]
      by_cases hm : f.mark = FaceState.VISIBLE
      · rw [if_pos hm]
        by_cases hd : distanceToPlane f p > tol
        · simp only [if_pos hd]
          constructor
          · intro h
            exfalso
            by_cases hbr : distanceToPlane f p > 1000 * tol
            · rw [if_pos hbr] at h
              simp at h
            · rw [if_neg hbr] at h
              exact scanNewFaces_none_stays restFaces _ f h
          · intro h
            exact absurd hd (not_lt.mpr (h f (List.mem_cons_self f restFaces) hm))
        · simp only [if_neg hd]
          rw [if_neg (not_lt.mpr (by nlinarith : tol ≤ 1000 * tol))]
          rw [ih]
          constructor
          · intro h g hg hgm
            rcases List.mem_cons.mp hg with hg | hg
            · rw [hg]
              exact not_lt.mp hd
            · exact h g hg hgm
          · intro h g hg hgm
            exact h g (List.mem_cons_of_mem f hg) hgm
      · rw [if_neg hm]
        rw [ih]
        constructor
        · intro h g hg hgm
          rcases List.mem_cons.mp hg with hg | hg
          · rw [hg] at hgm
            exact absurd hgm hm
          · exact h g hg hgm
        · intro h g hg hgm
          exact h g (List.mem_cons_of_mem f hg) hgm

/-- C2 amended: resolveUnclaimedPoints assigns each unclaimed vertex the
face of its early-exiting scan; when the tolerance is nonnegative and no
visible new face is farther than 1000 * tolerance from any unclaimed
vertex, this coincides with unconditional maximum-distance assignment; and
(tolerance nonnegative) a vertex is discarded exactly when no visible new
face sees it beyond the tolerance. -/
theorem resolveUnclaimedPoints_amended (tol : α) (newFaces : List (PlaneFace α))
    (unclaimed : List (Vec3 α)) (h0 : 0 ≤ tol) :
    ((∀ p ∈ unclaimed, ∀ f ∈ newFaces, f.mark = FaceState.VISIBLE →
        distanceToPlane f p ≤ 1000 * tol) →
      resolveUnclaimedPoints tol newFaces unclaimed
        = unclaimed.map (fun p => (p, unconditionalSelect tol newFaces p))) ∧
    (∀ p ∈ unclaimed, (selectFaceForVertex tol newFaces p = none ↔
      ∀ f ∈ newFaces, f.mark = FaceState.VISIBLE → distanceToPlane f p ≤ tol)) := by
  constructor
  · intro hb
    rw [resolveUnclaimedPoints]
    refine List.map_congr_left ?_
    intro p hp
    have := scanNewFaces_eq_uncond h0 newFaces tol none
      (by nlinarith) (hb p hp)
    rw [selectFaceForVertex, unconditionalSelect, this]
  · intro p _
    rw [selectFaceForVertex]
    exact scanNewFaces_none_iff h0 newFaces

/-- C2 witness: the amended statement applied at tolerance 1, one visible
face and one unclaimed vertex within range. -/
theorem resolveUnclaimedPoints_amended_check :
    ((∀ p ∈ [(⟨0, 0, 5⟩ : Vec3 ℚ)], ∀ f ∈ [(⟨FaceState.VISIBLE, ⟨0, 0, 1⟩, 0⟩ : PlaneFace ℚ)],
        f.mark = FaceState.VISIBLE → distanceToPlane f p ≤ 1000 * 1) →
      resolveUnclaimedPoints (1 : ℚ) [⟨FaceState.VISIBLE, ⟨0, 0, 1⟩, 0⟩] [⟨0, 0, 5⟩]
        = [(⟨0, 0, 5⟩ : Vec3 ℚ)].map
            (fun p => (p, unconditionalSelect 1 [⟨FaceState.VISIBLE, ⟨0, 0, 1⟩, 0⟩] p))) ∧
    (∀ p ∈ [(⟨0, 0, 5⟩ : Vec3 ℚ)],
      (selectFaceForVertex 1 [⟨FaceState.VISIBLE, ⟨0, 0, 1⟩, 0⟩] p = none ↔
        ∀ f ∈ [(⟨FaceState.VISIBLE, ⟨0, 0, 1⟩, 0⟩ : PlaneFace ℚ)],
          f.mark = FaceState.VISIBLE → distanceToPlane f p ≤ 1)) :=
  resolveUnclaimedPoints_amended 1 [⟨FaceState.VISIBLE, ⟨0, 0, 1⟩, 0⟩] [⟨0, 0, 5⟩]
    (by norm_num)

/-! ## computeExtremes tolerance (claim C4) -/

/-- Number.EPSILON, double-precision machine epsilon: 2 to the power -52. -/
noncomputable def numberEpsilon : ℝ := (2 : ℝ) ^ (-52 : ℤ)

/-- The min-updating inner loop of computeExtremes: starting from the seed
coordinate, replace the running minimum whenever a strictly smaller
coordinate appears. -/
def loopMin (init : α) (coords : List α) : α :=
  coords.foldl (fun m c => if c < m then c else m) init

/-- The max-updating inner loop of computeExtremes. -/
def loopMax (init : α) (coords : List α) : α :=
  coords.foldl (fun m c => if c > m then c else m) init

/-- QuickHull.computeExtremes, restricted to what it stores in
this.tolerance: seed min and max of every axis with the coordinates of
vertex 0, scan all vertices updating them, and set
tolerance = 3 * Number.EPSILON * (max(|minX|,|maxX|) + max(|minY|,|maxY|) +
max(|minZ|,|maxZ|)). The loop of the source revisits vertex 0; seeding the
fold with vertex 0 and folding over the full vertex list is that same scan.
The empty case is unreachable: the constructor guarantees at least 4
points. -/
noncomputable def computeExtremesTolerance : List (Vec3 ℝ) → ℝ
  | [] => 0
  | p :: ps =>
      3 * numberEpsilon *
        (max |loopMin p.x ((p :: ps).map Vec3.x)| |loopMax p.x ((p :: ps).map Vec3.x)| +
         max |loopMin p.y ((p :: ps).map Vec3.y)| |loopMax p.y ((p :: ps).map Vec3.y)| +
         max |loopMin p.z ((p :: ps).map Vec3.z)| |loopMax p.z ((p :: ps).map Vec3.z)|)

theorem loopMin_cons (init c : α) (coords : List α) :
    loopMin init (c :: coords) = loopMin (if c < init then c else init) coords := rfl

theorem loopMax_cons (init c : α) (coords : List α) :
    loopMax init (c :: coords) = loopMax (if c > init then c else init) coords := rfl

theorem loopMin_mem (init : α) (coords : List α) :
    loopMin init coords = init ∨ loopMin init coords ∈ coords := by
  induction coords generalizing init with
  | nil => exact Or.inl rfl
  | cons c coords ih =>
      rw [loopMin_cons]
      rcases ih (if c < init then c else init) with h | h
      · rw [h]
        split
        · exact Or.inr (List.mem_cons_self c coords)
        · exact Or.inl rfl
      · exact Or.inr (List.mem_cons_of_mem c h)

theorem loopMin_le (init : α) (coords : List α) :
    loopMin init coords ≤ init ∧ ∀ c ∈ coords, loopMin init coords ≤ c := by
  induction coords generalizing init with
  | nil => exact ⟨le_refl init, by simp⟩
  | cons c coords ih =>
      rw [loopMin_cons]
      obtain ⟨h1, h2⟩ := ih (if c < init then c else init)
      refine ⟨?_, ?_⟩
      · refine h1.trans ?_
        split
        · exact le_of_lt (by assumption)
        · exact le_refl init
      · intro a ha
        rcases List.mem_cons.mp ha with rfl | ha
        · refine h1.trans ?_
          split
          · exact le_refl a
          · exact not_lt.mp (by assumption)
        · exact h2 a ha

theorem loopMax_mem (init : α) (coords : List α) :
    loopMax init coords = init ∨ loopMax init coords ∈ coords := by
  induction coords generalizing init with
  | nil => exact Or.inl rfl
  | cons c coords ih =>
      rw [loopMax_cons]
      rcases ih (if c > init then c else init) with h | h
      · rw [h]
        split
        · exact Or.inr (List.mem_cons_self c coords)
        · exact Or.inl rfl
      · exact Or.inr (List.mem_cons_of_mem c h)

theorem loopMax_ge (init : α) (coords : List α) :
    init ≤ loopMax init coords ∧ ∀ c ∈ coords, c ≤ loopMax init coords := by
  induction coords generalizing init with
  | nil => exact ⟨le_refl init, by simp⟩
  | cons c coords ih =>
      rw [loopMax_cons]
      obtain ⟨h1, h2⟩ := ih (if c > init then c else init)
      refine ⟨?_, ?_⟩
      · refine le_trans ?_ h1
        split
        · exact le_of_lt (by assumption)
        · exact le_refl init
      · intro a ha
        rcases List.mem_cons.mp ha with rfl | ha
        · refine le_trans ?_ h1
          split
          · exact le_refl a
          · exact not_lt.mp (by assumption)
        · exact h2 a ha

theorem loopMin_eq_least (init : α) (coords : List α) (m : α)
    (h : IsLeast {a | a = init ∨ a ∈ coords} m) : loopMin init coords = m := by
  refine le_antisymm ?_ (h.2 ?_)
  · rcases h.1 with h1 | h1
    · exact h1 ▸ (loopMin_le init coords).1
    · exact (loopMin_le init coords).2 m h1
  · rcases loopMin_mem init coords with h1 | h1
    · exact Or.inl h1
    · exact Or.inr h1

theorem loopMax_eq_greatest (init : α) (coords : List α) (m : α)
    (h : IsGreatest {a | a = init ∨ a ∈ coords} m) : loopMax init coords = m := by
  refine le_antisymm (h.2 ?_) ?_
  · rcases loopMax_mem init coords with h1 | h1
    · exact Or.inl h1
    · exact Or.inr h1
  · rcases h.1 with h1 | h1
    · exact h1 ▸ (loopMax_ge init coords).1
    · exact (loopMax_ge init coords).2 m h1

/-- C4: after computeExtremes the tolerance equals 3 times double-precision
machine epsilon times the sum over the three axes of the larger of the
absolute values of that axis's least and greatest input coordinates. -/
theorem computeExtremes_tolerance (p : Vec3 ℝ) (ps : List (Vec3 ℝ))
    (m1 M1 m2 M2 m3 M3 : ℝ)
    (h1 : IsLeast {a | ∃ q ∈ p :: ps, q.x = a} m1)
    (h2 : IsGreatest {a | ∃ q ∈ p :: ps, q.x = a} M1)
    (h3 : IsLeast {a | ∃ q ∈ p :: ps, q.y = a} m2)
    (h4 : IsGreatest {a | ∃ q ∈ p :: ps, q.y = a} M2)
    (h5 : IsLeast {a | ∃ q ∈ p :: ps, q.z = a} m3)
    (h6 : IsGreatest {a | ∃ q ∈ p :: ps, q.z = a} M3) :
    computeExtremesTolerance (p :: ps) =
      3 * numberEpsilon * (max |m1| |M1| + max |m2| |M2| + max |m3| |M3|) := by
  have hset : ∀ (f : Vec3 ℝ → ℝ),
      {a | a = f p ∨ a ∈ (p :: ps).map f} = {a | ∃ q ∈ p :: ps, f q = a} := by
    intro f
    ext a
    simp only [Set.mem_setOf_eq, List.mem_map, List.mem_cons]
    constructor
    · rintro (rfl | ⟨q, hq, rfl⟩)
      · exact ⟨p, Or.inl rfl, rfl⟩
      · exact ⟨q, hq, rfl⟩
    · rintro ⟨q, hq, rfl⟩
      rcases hq with rfl | hq
      · exact Or.inl rfl
      · exact Or.inr ⟨q, Or.inr hq, rfl⟩
  rw [computeExtremesTolerance,
    loopMin_eq_least _ _ m1 (by rw [hset Vec3.x]; exact h1),
    loopMax_eq_greatest _ _ M1 (by rw [hset Vec3.x]; exact h2),
    loopMin_eq_least _ _ m2 (by rw [hset Vec3.y]; exact h3),
    loopMax_eq_greatest _ _ M2 (by rw [hset Vec3.y]; exact h4),
    loopMin_eq_least _ _ m3 (by rw [hset Vec3.z]; exact h5),
    loopMax_eq_greatest _ _ M3 (by rw [hset Vec3.z]; exact h6)]

/-! ## createInitialSimplex face creation and stitching (claim C7)

createTriangle(v0, v1, v2) builds half edges e0, e1, e2 with heads v0, v1,
v2, rings them as e0.next = e1, e1.next = e2, e2.next = e0 and sets
face.edge = e0. A half edge of the simplex is addressed as (face index,
slot), the slot being its position in that ring; each next step advances
the slot by one modulo 3, so Face.getEdge(i) for i >= 0 reaches slot
i mod 3. setOpposite writes both directions of the link. -/

/-- A half edge of one of the four simplex triangles: (face index, slot in
the createTriangle ring). -/
abbrev SimplexEdge : Type := Fin 4 × Fin 3

/-- Face.getEdge(i) on a createTriangle ring, for the nonnegative arguments
createInitialSimplex uses: walk i next steps from face.edge (slot 0). -/
def getEdgeSlot (i : Nat) : Fin 3 :=
  (fun s : Fin 3 => s + 1)^[i] 0

/-- HalfEdge.setOpposite on the table of opposite links: this.opposite =
edge and edge.opposite = this. -/
def setOpposite (m : SimplexEdge → Option SimplexEdge) (a b : SimplexEdge) :
    SimplexEdge → Option SimplexEdge :=
  fun e => if e = a then some b else if e = b then some a else m e

/-- The scheme-A stitching loop of createInitialSimplex: for i = 0, 1, 2
and j = (i+1) % 3, join faces[i+1].getEdge(2) with faces[0].getEdge(j),
then faces[i+1].getEdge(1) with faces[j+1].getEdge(0), in loop order. -/
def stitchPairsA : List (SimplexEdge × SimplexEdge) :=
  (List.finRange 3).flatMap (fun i =>
    [ ((⟨i.val + 1, by have := i.isLt; omega⟩, getEdgeSlot 2),
       (⟨0, by omega⟩, getEdgeSlot ((i.val + 1) % 3))),
      ((⟨i.val + 1, by have := i.isLt; omega⟩, getEdgeSlot 1),
       (⟨(i.val + 1) % 3 + 1, by omega⟩, getEdgeSlot 0)) ])

/-- The scheme-B stitching loop of createInitialSimplex: for i = 0, 1, 2
and j = (i+1) % 3, join faces[i+1].getEdge(2) with
faces[0].getEdge((3-i) % 3), then faces[i+1].getEdge(0) with
faces[j+1].getEdge(1), in loop order. -/
def stitchPairsB : List (SimplexEdge × SimplexEdge) :=
  (List.finRange 3).flatMap (fun i =>
    [ ((⟨i.val + 1, by have := i.isLt; omega⟩, getEdgeSlot 2),
       (⟨0, by omega⟩, getEdgeSlot ((3 - i.val) % 3))),
      ((⟨i.val + 1, by have := i.isLt; omega⟩, getEdgeSlot 0),
       (⟨(i.val + 1) % 3 + 1, by omega⟩, getEdgeSlot 1)) ])

/-- Run a stitching loop from the all-null opposite table the HalfEdge
constructors leave behind. -/
def stitchFold (pairs : List (SimplexEdge × SimplexEdge)) :
    SimplexEdge → Option SimplexEdge :=
  pairs.foldl (fun m pr => setOpposite m pr.1 pr.2) (fun _ => none)

/-- The face-building part of QuickHull.createInitialSimplex, as a function
of the chosen simplex vertices v0..v3: normal = getPlaneNormal(v0, v1, v2),
distPO = dot(v0, normal); when dot(v3, normal) - distPO is negative, create
the triangles (v0,v1,v2), (v3,v1,v0), (v3,v2,v1), (v3,v0,v2) and stitch
scheme A, otherwise create (v0,v2,v1), (v3,v0,v1), (v3,v1,v2), (v3,v2,v0)
and stitch scheme B. The first component gives each face's createTriangle
argument triple (its ring's head vertices at slots 0, 1, 2), the second the
opposite table. -/
def createInitialSimplexMesh (v0 v1 v2 v3 : Vec3 α) :
    (Fin 4 → Vec3 α × Vec3 α × Vec3 α) × (SimplexEdge → Option SimplexEdge) :=
  if dot v3 (getPlaneNormal v0 v1 v2) - dot v0 (getPlaneNormal v0 v1 v2) < 0 then
    (fun f => match f with
      | 0 => (v0, v1, v2)
      | 1 => (v3, v1, v0)
      | 2 => (v3, v2, v1)
      | 3 => (v3, v0, v2),
     stitchFold stitchPairsA)
  else
    (fun f => match f with
      | 0 => (v0, v2, v1)
      | 1 => (v3, v0, v1)
      | 2 => (v3, v1, v2)
      | 3 => (v3, v2, v0),
     stitchFold stitchPairsB)

/-- Modelled from the claim: scheme A pairs faces[i+1].edge(2) with
faces[0].edge((i+1) mod 3) and faces[i+1].edge(1) with
faces[((i+1) mod 3)+1].edge(0), for i = 0, 1, 2 (and opposites are
symmetric). -/
def schemeAPaired (e e2 : SimplexEdge) : Prop :=
  ∃ i : Fin 3,
    (e = (⟨i.val + 1, by have := i.isLt; omega⟩, getEdgeSlot 2) ∧
       e2 = (⟨0, by omega⟩, getEdgeSlot ((i.val + 1) % 3))) ∨
    (e2 = (⟨i.val + 1, by have := i.isLt; omega⟩, getEdgeSlot 2) ∧
       e = (⟨0, by omega⟩, getEdgeSlot ((i.val + 1) % 3))) ∨
    (e = (⟨i.val + 1, by have := i.isLt; omega⟩, getEdgeSlot 1) ∧
       e2 = (⟨(i.val + 1) % 3 + 1, by omega⟩, getEdgeSlot 0)) ∨
    (e2 = (⟨i.val + 1, by have := i.isLt; omega⟩, getEdgeSlot 1) ∧
       e = (⟨(i.val + 1) % 3 + 1, by omega⟩, getEdgeSlot 0))

/-- Modelled from the claim: scheme B pairs faces[i+1].edge(2) with
faces[0].edge((3-i) mod 3) and faces[i+1].edge(0) with
faces[((i+1) mod 3)+1].edge(1), for i = 0, 1, 2 (and opposites are
symmetric). -/
def schemeBPaired (e e2 : SimplexEdge) : Prop :=
  ∃ i : Fin 3,
    (e = (⟨i.val + 1, by have := i.isLt; omega⟩, getEdgeSlot 2) ∧
       e2 = (⟨0, by omega⟩, getEdgeSlot ((3 - i.val) % 3))) ∨
    (e2 = (⟨i.val + 1, by have := i.isLt; omega⟩, getEdgeSlot 2) ∧
       e = (⟨0, by omega⟩, getEdgeSlot ((3 - i.val) % 3))) ∨
    (e = (⟨i.val + 1, by have := i.isLt; omega⟩, getEdgeSlot 0) ∧
       e2 = (⟨(i.val + 1) % 3 + 1, by omega⟩, getEdgeSlot 1)) ∨
    (e2 = (⟨i.val + 1, by have := i.isLt; omega⟩, getEdgeSlot 0) ∧
       e = (⟨(i.val + 1) % 3 + 1, by omega⟩, getEdgeSlot 1))

instance decidableSchemeAPaired (e e2 : SimplexEdge) : Decidable (schemeAPaired e e2) := by
  unfold schemeAPaired
  infer_instance

instance decidableSchemeBPaired (e e2 : SimplexEdge) : Decidable (schemeBPaired e e2) := by
  unfold schemeBPaired
  infer_instance

/-- C7: when dot(n, v3) - dot(n, v0) is negative, createInitialSimplex
creates the triangles (v0,v1,v2), (v3,v1,v0), (v3,v2,v1), (v3,v0,v2) with
opposites exactly as scheme A pairs them; when it is nonnegative, the
triangles (v0,v2,v1), (v3,v0,v1), (v3,v1,v2), (v3,v2,v0) with opposites
exactly as scheme B pairs them. -/
theorem createInitialSimplex_schemes (v0 v1 v2 v3 : Vec3 α) :
    (dot v3 (getPlaneNormal v0 v1 v2) - dot v0 (getPlaneNormal v0 v1 v2) < 0 →
      (createInitialSimplexMesh v0 v1 v2 v3).1 = (fun f => match f with
        | 0 => (v0, v1, v2)
        | 1 => (v3, v1, v0)
        | 2 => (v3, v2, v1)
        | 3 => (v3, v0, v2)) ∧
      ∀ e e2, (createInitialSimplexMesh v0 v1 v2 v3).2 e = some e2 ↔ schemeAPaired e e2) ∧
    (¬ dot v3 (getPlaneNormal v0 v1 v2) - dot v0 (getPlaneNormal v0 v1 v2) < 0 →
      (createInitialSimplexMesh v0 v1 v2 v3).1 = (fun f => match f with
        | 0 => (v0, v2, v1)
        | 1 => (v3, v0, v1)
        | 2 => (v3, v1, v2)
        | 3 => (v3, v2, v0)) ∧
      ∀ e e2, (createInitialSimplexMesh v0 v1 v2 v3).2 e = some e2 ↔ schemeBPaired e e2) := by
  constructor
  · intro hneg
    rw [createInitialSimplexMesh, if_pos hneg]
    refine ⟨rfl, ?_⟩
    show ∀ e e2, stitchFold stitchPairsA e = some e2 ↔ schemeAPaired e e2
    decide
  · intro hpos
    rw [createInitialSimplexMesh, if_neg hpos]
    refine ⟨rfl, ?_⟩
    show ∀ e e2, stitchFold stitchPairsB e = some e2 ↔ schemeBPaired e e2
    decide

/-! ## Face.computeNormal and computeNormalMinArea (claim C1)

A face's edge ring is modelled by the list of its head points in next order
starting at face.edge, [q0, q1, ..., q(n-1)]; the edge at position k then
has head qk and tail q(k-1 mod n). computeNormal walks e0 = face.edge,
e1 = e0.next, e2 = e1.next onward accumulating cross products of successive
offsets from q0 (a Newell-style sum). -/

/-- The while loop of Face.computeNormal: v2 holds the previous head minus
q0, acc the accumulated normal; each step copies v2 to v1, recomputes v2
from the next head, and adds cross(v1, v2). -/
def newellGo (q0 v2 acc : Vec3 α) : List (Vec3 α) → Vec3 α
  | [] => acc
  | q :: qs => newellGo q0 (subtract q q0) (add acc (cross v2 (subtract q q0))) qs

/-- The Newell sum of Face.computeNormal over the ring of head points; the
face's area is its length and the face's normal is it scaled by 1/area.
Rings of fewer than three points do not occur (every face ring is closed
with nVertices at least 3); the value is junk there. -/
def newellNormal : List (Vec3 α) → Vec3 α
  | q0 :: q1 :: qs => newellGo q0 (subtract q1 q0) ⟨0, 0, 0⟩ qs
  | _ => ⟨0, 0, 0⟩

/-- The last element of the nonempty list q :: qs. -/
def lastOf (q : β) : List β → β
  | [] => q
  | r :: rs => lastOf r rs

/-- The (tail, head) point pairs of the ring's edges in walk order: edge 0
(face.edge) has head q0 and tail the last head of the ring, edge k has head
qk and tail q(k-1). -/
def ringEdges : List β → List (β × β)
  | [] => []
  | q :: qs => (lastOf q qs, q) :: List.zip (q :: qs) qs

/-- The do-while loop of computeNormalMinArea locating the longest edge:
starting from a best squared length of 0 and no edge, strictly improve over
the walk (the first maximum wins ties), returning the final squared length
and edge. -/
def findMaxEdgeGo : List (Vec3 α × Vec3 α) → α → Option (Vec3 α × Vec3 α) →
    α × Option (Vec3 α × Vec3 α)
  | [], maxSquaredLength, maxEdge => (maxSquaredLength, maxEdge)
  | e :: rest, maxSquaredLength, maxEdge =>
      if squaredDistance e.1 e.2 > maxSquaredLength then
        findMaxEdgeGo rest (squaredDistance e.1 e.2) (some e)
      else findMaxEdgeGo rest maxSquaredLength maxEdge

/-- Face.computeNormalMinArea(minArea): compute the Newell normal and area;
when the area is below minArea, find the longest edge, normalize
maxVector = head - tail by 1/sqrt(maxSquaredLength), take
maxProjection = dot(normal, maxVector), and update the normal by
scaleAndAdd(normal, normal, maxVector.length, -maxProjection) before
renormalizing. In the source maxVector.length is the JavaScript Array
length of the 3-component vector, i.e. the number 3 (not its Euclidean
length: the vector was just scaled to unit size), so every component
becomes normal[i] * 3 - maxProjection. The no-edge branch is junk: it only
arises for a ring whose edges all have squared length 0, where the source
dereferences an undefined maxEdge and produces a NaN vector. -/
noncomputable def computeNormalMinArea (minArea : ℝ) (ring : List (Vec3 ℝ)) : Vec3 ℝ :=
  let normal := scale (newellNormal ring) (1 / length (newellNormal ring))
  if length (newellNormal ring) < minArea then
    match findMaxEdgeGo (ringEdges ring) 0 none with
    | (maxSquaredLength, some maxEdge) =>
        let maxVector := scale (subtract maxEdge.2 maxEdge.1) (1 / Real.sqrt maxSquaredLength)
        normalize (scaleAndAdd normal 3 (-(dot normal maxVector)))
    | (_, none) => ⟨0, 0, 0⟩
  else normal

/-- Modelled from the spec sentence behind C1: when the Newell area is below
minArea, find the longest edge, normalize its direction u, and renormalize
the normal minus its projection onto u: normalize(n - dot(n, u) * u). The
longest edge is located exactly as the source locates it. -/
noncomputable def specMinAreaNormal (minArea : ℝ) (ring : List (Vec3 ℝ)) : Vec3 ℝ :=
  let normal := scale (newellNormal ring) (1 / length (newellNormal ring))
  if length (newellNormal ring) < minArea then
    match findMaxEdgeGo (ringEdges ring) 0 none with
    | (maxSquaredLength, some maxEdge) =>
        let u := scale (subtract maxEdge.2 maxEdge.1) (1 / Real.sqrt maxSquaredLength)
        normalize (subtract normal (scale u (dot normal u)))
    | (_, none) => ⟨0, 0, 0⟩
  else normal

/-- C1: on the sliver quadrilateral ring (0,0,0), (3,0,0), (3,1,4), (0,1,0)
with minArea = 15 (Newell area 14, longest edge from (3,1,4) to (0,1,0) of
length 5), the normal computeNormalMinArea produces is not
normalize(n - dot(n,u) * u): the source passes the array length 3 of
maxVector to its scaleAndAdd and adds the scalar -dot(n,u) to every
component, yielding normalize(3n - dot(n,u)) instead. -/
theorem computeNormalMinArea_deviates :
    computeNormalMinArea 15 [⟨0, 0, 0⟩, ⟨3, 0, 0⟩, ⟨3, 1, 4⟩, ⟨0, 1, 0⟩] ≠
      specMinAreaNormal 15 [⟨0, 0, 0⟩, ⟨3, 0, 0⟩, ⟨3, 1, 4⟩, ⟨0, 1, 0⟩] := by
  have h196 : Real.sqrt 196 = 14 := by
    rw [show (196 : ℝ) = 14 ^ 2 by norm_num, Real.sqrt_sq (by norm_num : (0:ℝ) ≤ 14)]
  have h25 : Real.sqrt 25 = 5 := by
    rw [show (25 : ℝ) = 5 ^ 2 by norm_num, Real.sqrt_sq (by norm_num : (0:ℝ) ≤ 5)]
  have hN : newellNormal [(⟨0, 0, 0⟩ : Vec3 ℝ), ⟨3, 0, 0⟩, ⟨3, 1, 4⟩, ⟨0, 1, 0⟩]
      = ⟨-4, -12, 6⟩ := by
    simp only [newellNormal, newellGo, subtract, cross, add]
    norm_num
  have harea : length (⟨-4, -12, 6⟩ : Vec3 ℝ) = 14 := by
    rw [length, show ((-4 : ℝ) * -4 + -12 * -12 + 6 * 6) = 196 by norm_num, h196]
  have hfm : findMaxEdgeGo
      (ringEdges [(⟨0, 0, 0⟩ : Vec3 ℝ), ⟨3, 0, 0⟩, ⟨3, 1, 4⟩, ⟨0, 1, 0⟩]) 0 none
      = (25, some (⟨3, 1, 4⟩, ⟨0, 1, 0⟩)) := by
    norm_num [ringEdges, lastOf, findMaxEdgeGo, squaredDistance]
  have hcode : computeNormalMinArea 15 [(⟨0, 0, 0⟩ : Vec3 ℝ), ⟨3, 0, 0⟩, ⟨3, 1, 4⟩, ⟨0, 1, 0⟩]
      = normalize ⟨-24/35, -84/35, 51/35⟩ := by
    rw [computeNormalMinArea, hN, harea, if_pos (by norm_num : (14:ℝ) < 15), hfm]
    show normalize (scaleAndAdd (scale ⟨-4, -12, 6⟩ (1 / 14)) 3
        (-(dot (scale ⟨-4, -12, 6⟩ (1 / 14))
          (scale (subtract ⟨0, 1, 0⟩ ⟨3, 1, 4⟩) (1 / Real.sqrt 25))))) =
      normalize ⟨-24/35, -84/35, 51/35⟩
    rw [h25]
    congr 1
    simp only [scale, subtract, dot, scaleAndAdd, Vec3.mk.injEq]
    norm_num
  have hspec : specMinAreaNormal 15 [(⟨0, 0, 0⟩ : Vec3 ℝ), ⟨3, 0, 0⟩, ⟨3, 1, 4⟩, ⟨0, 1, 0⟩]
      = normalize ⟨-68/175, -150/175, 51/175⟩ := by
    rw [specMinAreaNormal, hN, harea, if_pos (by norm_num : (14:ℝ) < 15), hfm]
    show normalize (subtract (scale ⟨-4, -12, 6⟩ (1 / 14))
        (scale (scale (subtract ⟨0, 1, 0⟩ ⟨3, 1, 4⟩) (1 / Real.sqrt 25))
          (dot (scale ⟨-4, -12, 6⟩ (1 / 14))
            (scale (subtract ⟨0, 1, 0⟩ ⟨3, 1, 4⟩) (1 / Real.sqrt 25))))) =
      normalize ⟨-68/175, -150/175, 51/175⟩
    rw [h25]
    congr 1
    simp only [scale, subtract, dot, Vec3.mk.injEq]
    norm_num
  rw [hcode, hspec]
  intro h
  have hLw : (0:ℝ) < length ⟨-24/35, -84/35, 51/35⟩ := by
    rw [length]
    exact Real.sqrt_pos.mpr (by norm_num)
  have hLv : (0:ℝ) < length ⟨-68/175, -150/175, 51/175⟩ := by
    rw [length]
    exact Real.sqrt_pos.mpr (by norm_num)
  rw [normalize, if_neg hLw.ne', normalize, if_neg hLv.ne'] at h
  have hx := congrArg Vec3.x h
  have hz := congrArg Vec3.z h
  simp only [scale] at hx hz
  have hLw2 : length (⟨-24/35, -84/35, 51/35⟩ : Vec3 ℝ) ≠ 0 := hLw.ne'
  have hLv2 : length (⟨-68/175, -150/175, 51/175⟩ : Vec3 ℝ) ≠ 0 := hLv.ne'
  field_simp at hx hz
  nlinarith [hx, hz, hLw, hLv]

/-! ## pointLineDistance (claim C9) -/

/-- The squared Euclidean norm as the source sums it inside util.ts length. -/
def sqNorm (v : Vec3 α) : α :=
  v.x * v.x + v.y * v.y + v.z * v.z

/-- A point of the infinite line through l1 and l2: l1 + t * (l2 - l1);
for l1 distinct from l2 this parametrizes exactly the points of that line. -/
noncomputable def linePoint (l1 l2 : Vec3 ℝ) (t : ℝ) : Vec3 ℝ :=
  add l1 (scale (subtract l2 l1) t)

theorem sqNorm_nonneg (v : Vec3 α) : 0 ≤ sqNorm v :=
  add_nonneg (add_nonneg (mul_self_nonneg v.x) (mul_self_nonneg v.y)) (mul_self_nonneg v.z)

/-- C9: pointLineDistance(p, l1, l2) is the Euclidean distance from p to
the infinite line through l1 and l2 — a lower bound on the distance from p
to every point of the line, attained at some point of the line — and it
returns 0 when the two line points coincide. -/
theorem pointLineDistance_correct (p l1 l2 : Vec3 ℝ) :
    (l1 ≠ l2 →
      (∀ t : ℝ, pointLineDistance p l1 l2 ≤ distance p (linePoint l1 l2 t)) ∧
      (∃ t : ℝ, distance p (linePoint l1 l2 t) = pointLineDistance p l1 l2)) ∧
    pointLineDistance p l1 l1 = 0 := by
  have hpld : pointLineDistance p l1 l2 =
      Real.sqrt (sqNorm (cross (subtract l2 l1) (subtract l1 p))) /
        Real.sqrt (sqNorm (subtract l2 l1)) := rfl
  have hdisteq : ∀ q, distance p q = Real.sqrt (squaredDistance p q) := fun q => rfl
  constructor
  · intro hne
    have hdpos : 0 < sqNorm (subtract l2 l1) := by
      rcases lt_or_eq_of_le (sqNorm_nonneg (subtract l2 l1)) with h | h
      · exact h
      · exfalso
        have h2 := h.symm
        simp only [sqNorm] at h2
        have hxx : (subtract l2 l1).x * (subtract l2 l1).x = 0 :=
          le_antisymm (by nlinarith [h2, mul_self_nonneg (subtract l2 l1).y,
            mul_self_nonneg (subtract l2 l1).z]) (mul_self_nonneg _)
        have hyy : (subtract l2 l1).y * (subtract l2 l1).y = 0 :=
          le_antisymm (by nlinarith [h2, mul_self_nonneg (subtract l2 l1).x,
            mul_self_nonneg (subtract l2 l1).z]) (mul_self_nonneg _)
        have hzz : (subtract l2 l1).z * (subtract l2 l1).z = 0 :=
          le_antisymm (by nlinarith [h2, mul_self_nonneg (subtract l2 l1).x,
            mul_self_nonneg (subtract l2 l1).y]) (mul_self_nonneg _)
        have hx := mul_self_eq_zero.mp hxx
        have hy := mul_self_eq_zero.mp hyy
        have hz := mul_self_eq_zero.mp hzz
        apply hne
        cases l1 with
        | mk a1 b1 c1 =>
            cases l2 with
            | mk a2 b2 c2 =>
                simp only [subtract] at hx hy hz
                simp only [Vec3.mk.injEq]
                refine ⟨by linarith, by linarith, by linarith⟩
    have hQidentity : ∀ t : ℝ, squaredDistance p (linePoint l1 l2 t) * sqNorm (subtract l2 l1)
        = sqNorm (cross (subtract l2 l1) (subtract l1 p)) +
          (dot (subtract l1 p) (subtract l2 l1) + t * sqNorm (subtract l2 l1)) ^ 2 := by
      intro t
      simp only [squaredDistance, linePoint, add, scale, subtract, cross, dot, sqNorm]
      ring
    have hsd : 0 < Real.sqrt (sqNorm (subtract l2 l1)) := Real.sqrt_pos.mpr hdpos
    constructor
    · intro t
      have hQnn : 0 ≤ squaredDistance p (linePoint l1 l2 t) := by
        simp only [squaredDistance]
        positivity
      rw [hpld, hdisteq, div_le_iff hsd, ← Real.sqrt_mul hQnn]
      apply Real.sqrt_le_sqrt
      nlinarith [hQidentity t,
        sq_nonneg (dot (subtract l1 p) (subtract l2 l1) + t * sqNorm (subtract l2 l1))]
    · refine ⟨-(dot (subtract l1 p) (subtract l2 l1)) / sqNorm (subtract l2 l1), ?_⟩
      have hzero : dot (subtract l1 p) (subtract l2 l1) +
          (-(dot (subtract l1 p) (subtract l2 l1)) / sqNorm (subtract l2 l1)) *
            sqNorm (subtract l2 l1) = 0 := by
        field_simp
      have hQs : squaredDistance p
          (linePoint l1 l2 (-(dot (subtract l1 p) (subtract l2 l1)) / sqNorm (subtract l2 l1)))
            * sqNorm (subtract l2 l1)
          = sqNorm (cross (subtract l2 l1) (subtract l1 p)) := by
        rw [hQidentity, hzero]
        ring
      have hQval : squaredDistance p
          (linePoint l1 l2 (-(dot (subtract l1 p) (subtract l2 l1)) / sqNorm (subtract l2 l1)))
          = sqNorm (cross (subtract l2 l1) (subtract l1 p)) / sqNorm (subtract l2 l1) := by
        rw [eq_div_iff hdpos.ne']
        exact hQs
      rw [hdisteq, hpld, hQval,
        Real.sqrt_div (sqNorm_nonneg (cross (subtract l2 l1) (subtract l1 p)))]
  · show Real.sqrt (sqNorm (cross (subtract l1 l1) (subtract l1 p))) /
        Real.sqrt (sqNorm (subtract l1 l1)) = 0
    simp [subtract, cross, sqNorm]

/-! ## addVertexToFace and removeVertexFromFace (claim C8)

The builder state these two methods touch: the claimed vertex list (in list
order), each vertex's face back-reference, and each face's outside pointer.
The VertexList class itself (vertexlist.ts) is not among the repository
files provided — only its callers are — so its operations are modelled from
the spec (section 4.2). -/

/-- The claimed list, the vertex face back-references and the face outside
pointers, over abstract vertex and face identities. -/
structure ClaimedState (V F : Type) where
  claimed : List V
  vface : V → Option F
  outside : F → Option V

/-- Modelled from the spec: VertexList.add appends the vertex at the end. -/
def vlistAdd {V : Type} (l : List V) (v : V) : List V := l ++ [v]

/-- Modelled from the spec: VertexList.insertBefore splices the vertex
immediately before ref. Callers always pass a ref that is in the list; for
a missing ref this model appends, a case no caller reaches. -/
def vlistInsertBefore {V : Type} [DecidableEq V] : List V → V → V → List V
  | [], _, v => [v]
  | w :: rest, ref, v =>
      if w = ref then v :: w :: rest else w :: vlistInsertBefore rest ref v

/-- Modelled from the spec: VertexList.remove unlinks the vertex. -/
def vlistRemove {V : Type} [DecidableEq V] (l : List V) (v : V) : List V := l.erase v

/-- The successor of v in the claimed list (the vertex.next pointer). -/
def nextInList {V : Type} [DecidableEq V] : List V → V → Option V
  | [], _ => none
  | w :: rest, v => if w = v then rest.head? else nextInList rest v

/-- QuickHull.addVertexToFace: vertex.face = face; when the face has no
outside vertex the vertex is appended to claimed, else inserted before
face.outside; finally face.outside points at the vertex. -/
def addVertexToFace {V F : Type} [DecidableEq V] [DecidableEq F]
    (st : ClaimedState V F) (v : V) (f : F) : ClaimedState V F :=
  { claimed :=
      match st.outside f with
      | none => vlistAdd st.claimed v
      | some ref => vlistInsertBefore st.claimed ref v
    vface := fun w => if w = v then some f else st.vface w
    outside := fun g => if g = f then some v else st.outside g }

/-- QuickHull.removeVertexFromFace: when the vertex is face.outside, move
the pointer to vertex.next if that vertex exists and is claimed by the same
face, null it otherwise; then remove the vertex from the claimed list. -/
def removeVertexFromFace {V F : Type} [DecidableEq V] [DecidableEq F]
    (st : ClaimedState V F) (v : V) (f : F) : ClaimedState V F :=
  { claimed := vlistRemove st.claimed v
    vface := st.vface
    outside := fun g =>
      if g = f then
        if st.outside f = some v then
          match nextInList st.claimed v with
          | some w => if st.vface w = some f then some w else none
          | none => none
        else st.outside f
      else st.outside g }

/-- The claimed-list structure invariant of the spec: for every face, the
claimed list splits as pre ++ run ++ post where the run carries exactly that
face's vertices (contiguously), no vertex outside the run has that face,
and the face's outside pointer is the run's first entry (none when the run
is empty). -/
def RunInvariant {V F : Type} (st : ClaimedState V F) : Prop :=
  ∀ f : F, ∃ pre run post : List V,
    st.claimed = pre ++ run ++ post ∧
    (∀ w ∈ run, st.vface w = some f) ∧
    (∀ w ∈ pre, st.vface w ≠ some f) ∧
    (∀ w ∈ post, st.vface w ≠ some f) ∧
    st.outside f = run.head?

theorem vlistInsertBefore_append_left {V : Type} [DecidableEq V]
    (l1 l2 : List V) (ref v : V) (h : ref ∈ l1) :
    vlistInsertBefore (l1 ++ l2) ref v = vlistInsertBefore l1 ref v ++ l2 := by
  induction l1 with
  | nil => exact absurd h (List.not_mem_nil ref)
  | cons w rest ih =>
      by_cases hw : w = ref
      · simp [vlistInsertBefore, hw]
      · rcases List.mem_cons.mp h with h1 | h1
        · exact absurd h1.symm hw
        · simp [vlistInsertBefore, hw, ih h1]

theorem vlistInsertBefore_append_right {V : Type} [DecidableEq V]
    (l1 l2 : List V) (ref v : V) (h : ref ∉ l1) :
    vlistInsertBefore (l1 ++ l2) ref v = l1 ++ vlistInsertBefore l2 ref v := by
  induction l1 with
  | nil => rfl
  | cons w rest ih =>
      have hw : w ≠ ref := fun he => h (he ▸ List.mem_cons_self w rest)
      simp [vlistInsertBefore, hw, ih (fun hm => h (List.mem_cons_of_mem w hm))]

theorem vlistInsertBefore_cons_self {V : Type} [DecidableEq V]
    (ref v : V) (rest : List V) :
    vlistInsertBefore (ref :: rest) ref v = v :: ref :: rest := by
  simp [vlistInsertBefore]

theorem vlistInsertBefore_perm {V : Type} [DecidableEq V] (l : List V) (ref v : V) :
    List.Perm (vlistInsertBefore l ref v) (v :: l) := by
  induction l with
  | nil => rfl
  | cons w rest ih =>
      by_cases hw : w = ref
      · rw [hw, vlistInsertBefore_cons_self]
      · rw [vlistInsertBefore, if_neg hw]
        exact (ih.cons w).trans (List.Perm.swap v w rest)

theorem nextInList_append {V : Type} [DecidableEq V]
    (l1 tail : List V) (v : V) (h : v ∉ l1) :
    nextInList (l1 ++ v :: tail) v = tail.head? := by
  induction l1 with
  | nil => simp [nextInList]
  | cons w rest ih =>
      have hw : w ≠ v := fun he => h (he ▸ List.mem_cons_self w rest)
      rw [List.cons_append, nextInList, if_neg hw]
      exact ih (fun hm => h (List.mem_cons_of_mem w hm))

theorem addVertexToFace_props {V F : Type} [DecidableEq V] [DecidableEq F]
    (st : ClaimedState V F) (v : V) (f : F) (pre run post : List V)
    (hnd : st.claimed.Nodup) (hinv : RunInvariant st)
    (hdec : st.claimed = pre ++ run ++ post)
    (hrun : ∀ w ∈ run, st.vface w = some f)
    (hpre : ∀ w ∈ pre, st.vface w ≠ some f)
    (hpost : ∀ w ∈ post, st.vface w ≠ some f)
    (hout : st.outside f = run.head?)
    (hv : v ∉ st.claimed) :
    (addVertexToFace st v f).claimed.Nodup ∧
    RunInvariant (addVertexToFace st v f) ∧
    (addVertexToFace st v f).outside f = some v ∧
    (run = [] → (addVertexToFace st v f).claimed = (pre ++ post) ++ [v]) ∧
    (run ≠ [] → (addVertexToFace st v f).claimed = pre ++ (v :: run) ++ post) := by
  have hvf : ∀ w ∈ st.claimed, (addVertexToFace st v f).vface w = st.vface w := by
    intro w hw
    have hwv : w ≠ v := fun he => hv (he ▸ hw)
    simp [addVertexToFace, hwv]
  have hvfv : (addVertexToFace st v f).vface v = some f := by
    simp [addVertexToFace]
  have hcl : (addVertexToFace st v f).claimed =
      match st.outside f with
      | none => vlistAdd st.claimed v
      | some ref => vlistInsertBefore st.claimed ref v := rfl
  have hclaimed : (run = [] ∧ (addVertexToFace st v f).claimed = st.claimed ++ [v]) ∨
      (∃ r0 rtail, run = r0 :: rtail ∧
        (addVertexToFace st v f).claimed = pre ++ (v :: run) ++ post) := by
    cases hr : run with
    | nil =>
        left
        refine ⟨rfl, ?_⟩
        rw [hcl, hout, hr]
        rfl
    | cons r0 rtail =>
        right
        refine ⟨r0, rtail, rfl, ?_⟩
        have hr0pre : r0 ∉ pre :=
          fun hm => hpre r0 hm (hrun r0 (by rw [hr]; exact List.mem_cons_self r0 rtail))
        rw [hcl, hout, hr]
        show vlistInsertBefore st.claimed r0 v = pre ++ (v :: r0 :: rtail) ++ post
        rw [hdec, hr, List.append_assoc, List.cons_append,
          vlistInsertBefore_append_right pre _ r0 v hr0pre,
          vlistInsertBefore_cons_self]
        simp
  have hperm : List.Perm (addVertexToFace st v f).claimed (v :: st.claimed) := by
    rw [hcl]
    cases hof : st.outside f with
    | none => exact List.perm_append_singleton v st.claimed
    | some ref => exact vlistInsertBefore_perm st.claimed ref v
  have hnd2 : (addVertexToFace st v f).claimed.Nodup :=
    hperm.symm.nodup (List.nodup_cons.mpr ⟨hv, hnd⟩)
  have houtf : (addVertexToFace st v f).outside f = some v := by
    simp [addVertexToFace]
  refine ⟨hnd2, ?_, houtf, ?_, ?_⟩
  · intro g
    by_cases hg : g = f
    · subst hg
      rcases hclaimed with ⟨hr, hc⟩ | ⟨r0, rtail, hr, hc⟩
      · refine ⟨pre ++ post, [v], [], ?_, ?_, ?_, by simp, by rw [houtf]; rfl⟩
        · rw [hc, hdec, hr]
          simp
        · intro w hw
          rw [List.mem_singleton.mp hw]
          exact hvfv
        · intro w hw
          have hwc : w ∈ st.claimed := by
            rw [hdec, hr]
            simpa using hw
          rw [hvf w hwc]
          rcases List.mem_append.mp hw with hw | hw
          · exact hpre w hw
          · exact hpost w hw
      · refine ⟨pre, v :: run, post, hc, ?_, ?_, ?_, by rw [houtf]; rfl⟩
        · intro w hw
          rcases List.mem_cons.mp hw with rfl | hw
          · exact hvfv
          · have hwc : w ∈ st.claimed := by
              rw [hdec]
              exact List.mem_append.mpr (Or.inl (List.mem_append.mpr (Or.inr hw)))
            rw [hvf w hwc]
            exact hrun w hw
        · intro w hw
          have hwc : w ∈ st.claimed := by
            rw [hdec]
            exact List.mem_append.mpr (Or.inl (List.mem_append.mpr (Or.inl hw)))
          rw [hvf w hwc]
          exact hpre w hw
        · intro w hw
          have hwc : w ∈ st.claimed := by
            rw [hdec]
            exact List.mem_append.mpr (Or.inr hw)
          rw [hvf w hwc]
          exact hpost w hw
    · obtain ⟨A, R, B, hg1, hg2, hg3, hg4, hg5⟩ := hinv g
      have hsomene : some f ≠ some g := fun he => hg (Option.some.inj he).symm
      have hAc : ∀ w ∈ A, w ∈ st.claimed := by
        intro w hw
        rw [hg1]
        exact List.mem_append.mpr (Or.inl (List.mem_append.mpr (Or.inl hw)))
      have hRc : ∀ w ∈ R, w ∈ st.claimed := by
        intro w hw
        rw [hg1]
        exact List.mem_append.mpr (Or.inl (List.mem_append.mpr (Or.inr hw)))
      have hBc : ∀ w ∈ B, w ∈ st.claimed := by
        intro w hw
        rw [hg1]
        exact List.mem_append.mpr (Or.inr hw)
      have houtg : (addVertexToFace st v f).outside g = R.head? := by
        simp only [addVertexToFace]
        rw [if_neg hg]
        exact hg5
      rcases hclaimed with ⟨hr, hc⟩ | ⟨r0, rtail, hr, hc⟩
      · refine ⟨A, R, B ++ [v], ?_, ?_, ?_, ?_, houtg⟩
        · rw [hc, hg1]
          simp
        · intro w hw
          rw [hvf w (hRc w hw)]
          exact hg2 w hw
        · intro w hw
          rw [hvf w (hAc w hw)]
          exact hg3 w hw
        · intro w hw
          rcases List.mem_append.mp hw with hw | hw
          · rw [hvf w (hBc w hw)]
            exact hg4 w hw
          · rw [List.mem_singleton.mp hw, hvfv]
            exact hsomene
      · have hr0run : r0 ∈ run := hr ▸ List.mem_cons_self r0 rtail
        have hr0f : st.vface r0 = some f := hrun r0 hr0run
        have hr0R : r0 ∉ R := fun hm => (hg2 r0 hm ▸ hr0f ▸ hsomene) rfl
        have hcl2 : (addVertexToFace st v f).claimed =
            vlistInsertBefore st.claimed r0 v := by
          rw [hcl, hout, hr]
          rfl
        by_cases hr0A : r0 ∈ A
        · refine ⟨vlistInsertBefore A r0 v, R, B, ?_, ?_, ?_, ?_, houtg⟩
          · rw [hcl2, hg1, List.append_assoc,
              vlistInsertBefore_append_left A _ r0 v hr0A]
            simp
          · intro w hw
            rw [hvf w (hRc w hw)]
            exact hg2 w hw
          · intro w hw
            rcases List.mem_cons.mp ((vlistInsertBefore_perm A r0 v).mem_iff.mp hw) with rfl | hw
            · rw [hvfv]
              exact hsomene
            · rw [hvf w (hAc w hw)]
              exact hg3 w hw
          · intro w hw
            rw [hvf w (hBc w hw)]
            exact hg4 w hw
        · refine ⟨A, R, vlistInsertBefore B r0 v, ?_, ?_, ?_, ?_, houtg⟩
          · rw [hcl2, hg1, List.append_assoc,
              vlistInsertBefore_append_right A _ r0 v hr0A,
              vlistInsertBefore_append_right R _ r0 v hr0R]
            simp
          · intro w hw
            rw [hvf w (hRc w hw)]
            exact hg2 w hw
          · intro w hw
            rw [hvf w (hAc w hw)]
            exact hg3 w hw
          · intro w hw
            rcases List.mem_cons.mp ((vlistInsertBefore_perm B r0 v).mem_iff.mp hw) with rfl | hw
            · rw [hvfv]
              exact hsomene
            · rw [hvf w (hBc w hw)]
              exact hg4 w hw
  · intro hr
    rcases hclaimed with ⟨_, hc⟩ | ⟨r0, rtail, hr2, _⟩
    · rw [hc, hdec, hr]
      simp
    · rw [hr] at hr2
      exact absurd hr2.symm (List.cons_ne_nil r0 rtail)
  · intro hr
    rcases hclaimed with ⟨hr2, _⟩ | ⟨r0, rtail, _, hc⟩
    · exact absurd hr2 hr
    · exact hc

theorem removeVertexFromFace_props {V F : Type} [DecidableEq V] [DecidableEq F]
    (st : ClaimedState V F) (v : V) (f : F) (pre run post : List V)
    (hnd : st.claimed.Nodup) (hinv : RunInvariant st)
    (hdec : st.claimed = pre ++ run ++ post)
    (hrun : ∀ w ∈ run, st.vface w = some f)
    (hpre : ∀ w ∈ pre, st.vface w ≠ some f)
    (hpost : ∀ w ∈ post, st.vface w ≠ some f)
    (hout : st.outside f = run.head?)
    (hvface : st.vface v = some f) (hvc : v ∈ st.claimed) :
    (removeVertexFromFace st v f).claimed.Nodup ∧
    RunInvariant (removeVertexFromFace st v f) ∧
    (∀ w rest2, run = v :: w :: rest2 →
      (removeVertexFromFace st v f).outside f = some w) ∧
    (run = [v] → (removeVertexFromFace st v f).outside f = none) := by
  have hvpre : v ∉ pre := fun hm => hpre v hm hvface
  have hvpost : v ∉ post := fun hm => hpost v hm hvface
  have hvrun : v ∈ run := by
    rw [hdec] at hvc
    rcases List.mem_append.mp hvc with h | h
    · rcases List.mem_append.mp h with h | h
      · exact absurd h hvpre
      · exact h
    · exact absurd h hvpost
  have hcl : (removeVertexFromFace st v f).claimed = st.claimed.erase v := rfl
  have hclaimed : (removeVertexFromFace st v f).claimed = pre ++ run.erase v ++ post := by
    rw [hcl, hdec, List.append_assoc, List.erase_append_right _ hvpre,
      List.erase_append_left _ hvrun, List.append_assoc]
  have hvfr : (removeVertexFromFace st v f).vface = st.vface := rfl
  have houtchar : (removeVertexFromFace st v f).outside f = (run.erase v).head? := by
    show (if f = f then
        if st.outside f = some v then
          match nextInList st.claimed v with
          | some w => if st.vface w = some f then some w else none
          | none => none
        else st.outside f
      else st.outside f) = (run.erase v).head?
    rw [if_pos rfl]
    cases hr : run with
    | nil => exact absurd (hr ▸ hvrun) (List.not_mem_nil v)
    | cons r0 rtail =>
        rw [hr] at hout
        by_cases hr0v : r0 = v
        · subst hr0v
          rw [if_pos (by rw [hout]; rfl)]
          have hnext : nextInList st.claimed r0 = (rtail ++ post).head? := by
            rw [hdec, hr, List.append_assoc, List.cons_append]
            exact nextInList_append pre _ r0 hvpre
          rw [hnext, List.erase_cons_head]
          cases rtail with
          | nil =>
              cases hp : post with
              | nil => rfl
              | cons p ptail =>
                  have hpf : st.vface p ≠ some f :=
                    hpost p (hp ▸ List.mem_cons_self p ptail)
                  simp only [List.nil_append, hp, List.head?_cons]
                  rw [if_neg hpf]
                  rfl
          | cons w rest2 =>
              have hwf : st.vface w = some f :=
                hrun w (by rw [hr]; exact List.mem_cons_of_mem r0 (List.mem_cons_self w rest2))
              simp only [List.cons_append, List.head?_cons]
              rw [if_pos hwf]
        · have hcond : st.outside f ≠ some v := by
            rw [hout]
            intro hcon
            exact hr0v (Option.some.inj hcon)
          rw [if_neg hcond, hout]
          simp [List.erase_cons, hr0v]
  refine ⟨?_, ?_, ?_, ?_⟩
  · rw [hcl]
    exact hnd.erase v
  · intro g
    by_cases hg : g = f
    · subst hg
      refine ⟨pre, run.erase v, post, hclaimed, ?_, ?_, ?_, houtchar⟩
      · intro w hw
        exact hrun w (List.mem_of_mem_erase hw)
      · intro w hw
        exact hpre w hw
      · intro w hw
        exact hpost w hw
    · obtain ⟨A, R, B, hg1, hg2, hg3, hg4, hg5⟩ := hinv g
      have hsomene : some f ≠ some g := fun he => hg (Option.some.inj he).symm
      have hvR : v ∉ R := fun hm => (hg2 v hm ▸ hvface ▸ hsomene) rfl
      have houtg : (removeVertexFromFace st v f).outside g = R.head? := by
        show (if g = f then _ else st.outside g) = R.head?
        rw [if_neg hg]
        exact hg5
      by_cases hvA : v ∈ A
      · refine ⟨A.erase v, R, B, ?_, hg2, ?_, hg4, houtg⟩
        · rw [hcl, hg1, List.append_assoc, List.erase_append_left _ hvA,
            List.append_assoc]
        · intro w hw
          exact hg3 w (List.mem_of_mem_erase hw)
      · refine ⟨A, R, B.erase v, ?_, hg2, hg3, ?_, houtg⟩
        · rw [hcl, hg1, List.append_assoc, List.erase_append_right _ hvA,
            List.erase_append_right _ hvR, List.append_assoc]
        · intro w hw
          exact hg4 w (List.mem_of_mem_erase hw)
  · intro w rest2 hr
    rw [houtchar, hr, List.erase_cons_head]
    rfl
  · intro hr
    rw [houtchar, hr, List.erase_cons_head]
    rfl

/-- C8: addVertexToFace and removeVertexFromFace preserve the claimed-list
run structure: runs stay contiguous with each face.outside at its run's
first entry (or null for a face with no claimed vertex); addVertexToFace
prepends the vertex to the face's run (appending to claimed when the run
was empty, inserting before the old run head otherwise) and points
face.outside at it; removeVertexFromFace moves face.outside to vertex.next
when the vertex headed a run of at least two, and nulls it when the vertex
was the face's only outside vertex. -/
theorem addRemoveVertexToFace_invariant {V F : Type} [DecidableEq V] [DecidableEq F]
    (st : ClaimedState V F) (v : V) (f : F) (pre run post : List V)
    (hnd : st.claimed.Nodup) (hinv : RunInvariant st)
    (hdec : st.claimed = pre ++ run ++ post)
    (hrun : ∀ w ∈ run, st.vface w = some f)
    (hpre : ∀ w ∈ pre, st.vface w ≠ some f)
    (hpost : ∀ w ∈ post, st.vface w ≠ some f)
    (hout : st.outside f = run.head?) :
    (v ∉ st.claimed →
      (addVertexToFace st v f).claimed.Nodup ∧
      RunInvariant (addVertexToFace st v f) ∧
      (addVertexToFace st v f).outside f = some v ∧
      (run = [] → (addVertexToFace st v f).claimed = (pre ++ post) ++ [v]) ∧
      (run ≠ [] → (addVertexToFace st v f).claimed = pre ++ (v :: run) ++ post)) ∧
    (st.vface v = some f → v ∈ st.claimed →
      (removeVertexFromFace st v f).claimed.Nodup ∧
      RunInvariant (removeVertexFromFace st v f) ∧
      (∀ w rest2, run = v :: w :: rest2 →
        (removeVertexFromFace st v f).outside f = some w) ∧
      (run = [v] → (removeVertexFromFace st v f).outside f = none)) :=
  ⟨fun hv => addVertexToFace_props st v f pre run post hnd hinv hdec hrun hpre hpost hout hv,
   fun h1 h2 =>
     removeVertexFromFace_props st v f pre run post hnd hinv hdec hrun hpre hpost hout h1 h2⟩

/-- A concrete two-vertex state for exercising the claimed-list theorem:
vertex 10 claimed by face 0, vertex 11 claimed by face 1. -/
def st0 : ClaimedState Nat Nat where
  claimed := [10, 11]
  vface := fun w => if w = 10 then some 0 else if w = 11 then some 1 else none
  outside := fun g => if g = 0 then some 10 else if g = 1 then some 11 else none

theorem st0_runInvariant : RunInvariant st0 := by
  intro g
  by_cases hg0 : g = 0
  · subst hg0
    exact ⟨[], [10], [11], rfl, by decide, by decide, by decide, rfl⟩
  · by_cases hg1 : g = 1
    · subst hg1
      exact ⟨[10], [11], [], rfl, by decide, by decide, by decide, rfl⟩
    · refine ⟨[10, 11], [], [],
        rfl, fun w hw => absurd hw (List.not_mem_nil w), ?_,
        fun w hw => absurd hw (List.not_mem_nil w), ?_⟩
      · intro w hw
        have hw2 : st0.vface w = some 0 ∨ st0.vface w = some 1 := by
          rcases List.mem_cons.mp hw with rfl | hw
          · exact Or.inl rfl
          · rcases List.mem_cons.mp hw with rfl | hw
            · exact Or.inr rfl
            · exact absurd hw (List.not_mem_nil w)
        rcases hw2 with h | h
        · rw [h]
          intro hcon
          exact hg0 (Option.some.inj hcon).symm
        · rw [h]
          intro hcon
          exact hg1 (Option.some.inj hcon).symm
      · show st0.outside g = ([] : List Nat).head?
        simp [st0, hg0, hg1]

/-- C8 witness: the add and remove properties at the concrete state st0,
adding vertex 12 to face 0 and removing vertex 10 from face 0. -/
theorem addRemoveVertexToFace_invariant_check :
    (12 ∉ st0.claimed →
      (addVertexToFace st0 12 0).claimed.Nodup ∧
      RunInvariant (addVertexToFace st0 12 0) ∧
      (addVertexToFace st0 12 0).outside 0 = some 12 ∧
      (([10] : List Nat) = [] →
        (addVertexToFace st0 12 0).claimed = (([] : List Nat) ++ [11]) ++ [12]) ∧
      (([10] : List Nat) ≠ [] →
        (addVertexToFace st0 12 0).claimed = ([] : List Nat) ++ (12 :: [10]) ++ [11])) ∧
    (st0.vface 12 = some 0 → 12 ∈ st0.claimed →
      (removeVertexFromFace st0 12 0).claimed.Nodup ∧
      RunInvariant (removeVertexFromFace st0 12 0) ∧
      (∀ w rest2, ([10] : List Nat) = 12 :: w :: rest2 →
        (removeVertexFromFace st0 12 0).outside 0 = some w) ∧
      (([10] : List Nat) = [12] → (removeVertexFromFace st0 12 0).outside 0 = none)) :=
  addRemoveVertexToFace_invariant st0 12 0 [] [10] [11] (by decide) st0_runInvariant rfl
    (by decide) (by decide) (by decide) rfl

/-- C4 witness: the tolerance theorem applied to the two points (0,0,0) and
(1,-2,3), whose per-axis extremes are 0/1, -2/0 and 0/3. -/
theorem computeExtremes_tolerance_check :
    computeExtremesTolerance [⟨0, 0, 0⟩, ⟨1, -2, 3⟩] =
      3 * numberEpsilon *
        (max |(0:ℝ)| |(1:ℝ)| + max |(-2:ℝ)| |(0:ℝ)| + max |(0:ℝ)| |(3:ℝ)|) :=
  computeExtremes_tolerance ⟨0, 0, 0⟩ [⟨1, -2, 3⟩] 0 1 (-2) 0 0 3
    (by
      constructor
      · exact ⟨⟨0, 0, 0⟩, by simp, rfl⟩
      · rintro a ⟨q, hq, rfl⟩
        rcases List.mem_cons.mp hq with rfl | hq
        · norm_num
        · rcases List.mem_cons.mp hq with rfl | hq
          · norm_num
          · exact absurd hq (List.not_mem_nil q))
    (by
      constructor
      · exact ⟨⟨1, -2, 3⟩, by simp, rfl⟩
      · rintro a ⟨q, hq, rfl⟩
        rcases List.mem_cons.mp hq with rfl | hq
        · norm_num
        · rcases List.mem_cons.mp hq with rfl | hq
          · norm_num
          · exact absurd hq (List.not_mem_nil q))
    (by
      constructor
      · exact ⟨⟨1, -2, 3⟩, by simp, rfl⟩
      · rintro a ⟨q, hq, rfl⟩
        rcases List.mem_cons.mp hq with rfl | hq
        · norm_num
        · rcases List.mem_cons.mp hq with rfl | hq
          · norm_num
          · exact absurd hq (List.not_mem_nil q))
    (by
      constructor
      · exact ⟨⟨0, 0, 0⟩, by simp, rfl⟩
      · rintro a ⟨q, hq, rfl⟩
        rcases List.mem_cons.mp hq with rfl | hq
        · norm_num
        · rcases List.mem_cons.mp hq with rfl | hq
          · norm_num
          · exact absurd hq (List.not_mem_nil q))
    (by
      constructor
      · exact ⟨⟨0, 0, 0⟩, by simp, rfl⟩
      · rintro a ⟨q, hq, rfl⟩
        rcases List.mem_cons.mp hq with rfl | hq
        · norm_num
        · rcases List.mem_cons.mp hq with rfl | hq
          · norm_num
          · exact absurd hq (List.not_mem_nil q))
    (by
      constructor
      · exact ⟨⟨1, -2, 3⟩, by simp, rfl⟩
      · rintro a ⟨q, hq, rfl⟩
        rcases List.mem_cons.mp hq with rfl | hq
        · norm_num
        · rcases List.mem_cons.mp hq with rfl | hq
          · norm_num
          · exact absurd hq (List.not_mem_nil q))

end QuickHullTS
